import Mathlib

/-!
Verification of the canonicalization-and-flattening engine of
`generate_api_list.py` (chromium-api-list).

The script's core consists of:
* `CanonicalizeSnapshot` — recursively stable-sorts every repeated field of
  the snapshot protobuf by each element's `name` (skipping any field called
  `arguments`);
* `ProtobufToCanonicalList` — walks the snapshot into flat rows and stable
  sorts them by the key `interface + ":" + name`;
* the per-row field-derivation helpers `GetExtendedAttributes`, `GetIdlType`,
  `GetSourceLocation`.

Python's `sorted`/`list.sort` is a stable sort; any stable sorting algorithm
computes the same function, so we model it with `List.insertionSort` on a
key-derived total preorder.
-/

namespace ApiList

/-- Code-point-lexicographic `≤` on lists of characters: Python's string
comparison compares Unicode code points position by position, a shorter
prefix ordering before any extension. -/
def lexLeB : List Char → List Char → Bool
  | [], _ => true
  | _ :: _, [] => false
  | a :: as, b :: bs => if a < b then true else if b < a then false else lexLeB as bs

/-- Python's `str` ordering: code-point-lexicographic comparison. -/
def strLe (a b : String) : Bool := lexLeB a.data b.data

/-- Python's `sorted(l, key=key)` for string keys: the stable sort of `l`
by `key` under Python's string order.  Modelled by insertion sort, which is
stable. -/
def pysortBy {α : Type} (key : α → String) (l : List α) : List α :=
  l.insertionSort (fun a b => strLe (key a) (key b) = true)

/-! ## Data model

Modelled from the spec: the protobuf schema `blink_apis_pb2` is generated
code not present in this repository; the record shapes below follow the
spec's §3 data model (which matches every field access the script makes).
Proto3 semantics: unset strings are `""`, unset integers are `0`, unset
booleans are `false`, unset submessages are default instances. -/

/-- The `HighEntropyType` enum from the snapshot schema. -/
inductive HighEntropyType where
  | HIGH_ENTROPY_NONE
  | HIGH_ENTROPY_UNCLASSIFIED
  | HIGH_ENTROPY_DIRECT
  deriving DecidableEq, Repr

/-- An `IDLType`: a textual type descriptor. -/
structure IDLType where
  idl_type_string : String
  deriving DecidableEq, Repr

/-- The `ExtendedAttributes` message. -/
structure ExtendedAttributes where
  secure_context : Bool
  high_entropy : HighEntropyType
  use_counter : String
  deriving DecidableEq, Repr

/-- The `SourceLocation` message. -/
structure SourceLocation where
  filename : String
  line : Int
  deriving DecidableEq, Repr

/-- An interface attribute. -/
structure Attribute where
  name : String
  idl_type : IDLType
  extended_attributes : ExtendedAttributes
  source_location : SourceLocation
  deriving DecidableEq, Repr

/-- An interface operation; `arguments` is positionally significant. -/
structure Operation where
  name : String
  return_type : IDLType
  arguments : List IDLType
  extended_attributes : ExtendedAttributes
  source_location : SourceLocation
  deriving DecidableEq, Repr

/-- An interface constant. -/
structure Constant where
  name : String
  idl_type : IDLType
  source_location : SourceLocation
  deriving DecidableEq, Repr

/-- An interface-like entry of the snapshot. -/
structure Interface where
  name : String
  extended_attributes : ExtendedAttributes
  source_location : SourceLocation
  attributes : List Attribute
  operations : List Operation
  constants : List Constant
  deriving DecidableEq, Repr

/-- The root `Snapshot` message. -/
structure Snapshot where
  chromium_revision : String
  interfaces : List Interface
  deriving DecidableEq, Repr

/-! ## Rows

`ProtobufToCanonicalList` builds Python dicts with string keys drawn from the
fixed CSV column set; a key may be absent from a dict, which we model with
`Option String` per column. -/

/-- One flat CSV row: each column is present (`some`) or absent (`none`). -/
structure Row where
  interface : Option String := none
  name : Option String := none
  entity_type : Option String := none
  arguments : Option String := none
  idl_type : Option String := none
  syntactic_form : Option String := none
  use_counter : Option String := none
  secure_context : Option String := none
  high_entropy : Option String := none
  source_file : Option String := none
  source_line : Option String := none
  deriving DecidableEq, Repr

/-- Function `GetExtendedAttributes` (generate_api_list.py lines 36-48): conditionally
sets `secure_context`, `high_entropy`, `use_counter` on the row.  The Python
function mutates and returns `d`; we return the updated row.  (The source
assigns `secure_context` twice, which is idempotent and kept here.) -/
def GetExtendedAttributes (exts : ExtendedAttributes) (d : Row) : Row :=
  let d := if exts.secure_context then { d with secure_context := some "True" } else d
  let d :=
    if exts.high_entropy = HighEntropyType.HIGH_ENTROPY_UNCLASSIFIED then
      { d with high_entropy := some "(True)" }
    else if exts.high_entropy = HighEntropyType.HIGH_ENTROPY_DIRECT then
      { d with high_entropy := some "Direct" }
    else d
  let d := if exts.use_counter ≠ "" then { d with use_counter := some exts.use_counter } else d
  if exts.secure_context then { d with secure_context := some "True" } else d

/-- Function `GetIdlType` (lines 51-53): unconditionally sets `idl_type`. -/
def GetIdlType (idl_type : IDLType) (d : Row) : Row :=
  { d with idl_type := some idl_type.idl_type_string }

/-- Function `GetSourceLocation` (lines 56-61): sets `source_file` when `filename` is
truthy (non-empty) and `source_line` when `line` is truthy (non-zero) and
positive.  `str` of a positive Python int is its decimal representation. -/
def GetSourceLocation (source_location : SourceLocation) (d : Row) : Row :=
  let d :=
    if source_location.filename ≠ "" then { d with source_file := some source_location.filename }
    else d
  if source_location.line ≠ 0 then
    if source_location.line > 0 then { d with source_line := some (toString source_location.line) }
    else d
  else d

/-- The row built for an interface (lines 68-71). -/
def interfaceRow (i : Interface) : Row :=
  let d : Row := { interface := some i.name, entity_type := some "interface" }
  let d := GetExtendedAttributes i.extended_attributes d
  GetSourceLocation i.source_location d

/-- The row built for an attribute of interface `iname` (lines 73-82). -/
def attributeRow (iname : String) (attr : Attribute) : Row :=
  let d : Row := { interface := some iname, name := some attr.name,
                   entity_type := some "attribute" }
  let d := GetExtendedAttributes attr.extended_attributes d
  let d := GetIdlType attr.idl_type d
  GetSourceLocation attr.source_location d

/-- The row built for an operation of interface `iname` (lines 84-95). -/
def operationRow (iname : String) (op : Operation) : Row :=
  let d : Row := { interface := some iname, name := some op.name,
                   entity_type := some "operation" }
  let d := GetExtendedAttributes op.extended_attributes d
  let d := GetIdlType op.return_type d
  let d := GetSourceLocation op.source_location d
  let args := "(" ++ String.intercalate "," (op.arguments.map IDLType.idl_type_string) ++ ")"
  { d with arguments := some args }

/-- The row built for a constant of interface `iname` (lines 97-105). -/
def constantRow (iname : String) (c : Constant) : Row :=
  let d : Row := { interface := some iname, name := some c.name,
                   entity_type := some "constant" }
  let d := GetIdlType c.idl_type d
  GetSourceLocation c.source_location d

/-- The rows of one interface, in walk order: the interface row, then its
attributes, operations, constants in their stored order. -/
def interfaceRows (i : Interface) : List Row :=
  interfaceRow i ::
    (i.attributes.map (attributeRow i.name) ++ i.operations.map (operationRow i.name) ++
      i.constants.map (constantRow i.name))

/-- All rows in walk order, before the final sort (lines 67-105). -/
def walkRows (snapshot : Snapshot) : List Row :=
  snapshot.interfaces.flatMap interfaceRows

/-- Function `KeyFunc` (lines 107-108): `d.get('interface', '') + ':' + d.get('name', '')`. -/
def KeyFunc (d : Row) : String :=
  d.interface.getD "" ++ ":" ++ d.name.getD ""

/-- Function `ProtobufToCanonicalList` (lines 64-110): walk all rows, then stable
sort by `KeyFunc`. -/
def ProtobufToCanonicalList (snapshot : Snapshot) : List Row :=
  pysortBy KeyFunc (walkRows snapshot)

/-! ## Canonicalization

`CanonicalizeSnapshot` (lines 113-134) recursively visits every repeated
field of the snapshot message.  On this schema the repeated fields are
`Snapshot.interfaces`, `Interface.attributes` / `operations` / `constants`,
and `Operation.arguments`; the latter is skipped by name (line 122), the
rest are element-wise canonicalized (attributes, operations and constants
have no repeated fields other than the skipped `arguments`, so recursion
into them is the identity) and then stable-sorted by `NameOrSelf`, which
returns the element's `name` field. -/

/-- Function `Canonicalize` applied to one `InterfaceLike` message: sorts its
`attributes`, `operations` and `constants` by name; `arguments` inside each
operation are skipped, so operation records are untouched. -/
def canonInterface (i : Interface) : Interface :=
  { i with
    attributes := pysortBy Attribute.name i.attributes
    operations := pysortBy Operation.name i.operations
    constants := pysortBy Constant.name i.constants }

/-- Function `CanonicalizeSnapshot` (lines 113-134): recurse into every interface,
then sort the interfaces by name. -/
def CanonicalizeSnapshot (snapshot : Snapshot) : Snapshot :=
  { snapshot with
    interfaces := pysortBy Interface.name (snapshot.interfaces.map canonInterface) }

/-- All operations of a snapshot, in walk order. -/
def allOperations (S : Snapshot) : List Operation :=
  S.interfaces.flatMap Interface.operations

/-! ## Concrete example data used by the testable-property claims -/

/-- Proto3 default `ExtendedAttributes`. -/
def emptyExts : ExtendedAttributes :=
  { secure_context := false, high_entropy := HighEntropyType.HIGH_ENTROPY_NONE,
    use_counter := "" }

/-- Proto3 default `SourceLocation`. -/
def emptyLoc : SourceLocation := { filename := "", line := 0 }

/-- Interface `"B"` with a single constant `"x"`. -/
def ifaceB : Interface :=
  { name := "B", extended_attributes := emptyExts, source_location := emptyLoc,
    attributes := [], operations := [],
    constants := [{ name := "x", idl_type := { idl_type_string := "" },
                    source_location := emptyLoc }] }

/-- Interface `"A"` with a single attribute `"y"`. -/
def ifaceA : Interface :=
  { name := "A", extended_attributes := emptyExts, source_location := emptyLoc,
    attributes := [{ name := "y", idl_type := { idl_type_string := "" },
                     extended_attributes := emptyExts, source_location := emptyLoc }],
    operations := [], constants := [] }

/-- Snapshot holding `B` before `A`, for the row-ordering property. -/
def rowOrderSnapshot : Snapshot := { chromium_revision := "", interfaces := [ifaceB, ifaceA] }

/-- The `Navigator.share` operation of the field-derivation example. -/
def shareOperation : Operation :=
  { name := "share", return_type := { idl_type_string := "Promise<void>" },
    arguments := [{ idl_type_string := "ShareData" }],
    extended_attributes := { secure_context := true,
                             high_entropy := HighEntropyType.HIGH_ENTROPY_DIRECT,
                             use_counter := "" },
    source_location := emptyLoc }

/-- The `Navigator` interface carrying only `share`. -/
def navigatorInterface : Interface :=
  { name := "Navigator", extended_attributes := emptyExts, source_location := emptyLoc,
    attributes := [], operations := [shareOperation], constants := [] }

/-- Snapshot holding only `Navigator`. -/
def navigatorSnapshot : Snapshot :=
  { chromium_revision := "", interfaces := [navigatorInterface] }

/-- First of two overloaded `open` operations (argument list `(long)`). -/
def openOp1 : Operation :=
  { name := "open", return_type := { idl_type_string := "void" },
    arguments := [{ idl_type_string := "long" }],
    extended_attributes := emptyExts, source_location := emptyLoc }

/-- Second overloaded `open` operation (argument list `(DOMString)`). -/
def openOp2 : Operation :=
  { name := "open", return_type := { idl_type_string := "void" },
    arguments := [{ idl_type_string := "DOMString" }],
    extended_attributes := emptyExts, source_location := emptyLoc }

/-- Interface `"I"` with the two overloaded `open` operations, `openOp1`
first. -/
def openInterface : Interface :=
  { name := "I", extended_attributes := emptyExts, source_location := emptyLoc,
    attributes := [], operations := [openOp1, openOp2], constants := [] }

/-- Snapshot holding only `openInterface`. -/
def openSnapshot : Snapshot := { chromium_revision := "", interfaces := [openInterface] }

/-! ## Generic protobuf message model

`CanonicalizeSnapshot.Canonicalize` works by reflection over arbitrary
protobuf messages (`message.ListFields()`), so the claims about its failure
behaviour and about the `arguments` skip need a generic message model, not
just the fixed snapshot schema.  A message is a list of named fields; a
field is singular (attribute access returns its value) or repeated
(attribute access returns the container).  Python failure (`AttributeError`
from `NameOrSelf` on a message without a `name` field, `TypeError` from
comparing values that do not support `<`) is modelled with `Except`. -/

mutual
inductive PVal where
  | pint (n : Int)
  | pstr (s : String)
  | pmsg (fields : List (String × PField))

inductive PField where
  | single (v : PVal)
  | repeated (vs : List PVal)
end

/-- Function `NameOrSelf` (lines 114-115): Python attribute access `message.name`.
A non-message or a message whose descriptor has no `name` field raises
`AttributeError`; a singular field yields its value, a repeated field the
container. -/
def NameOrSelf (v : PVal) : Except String PField :=
  match v with
  | .pmsg fields =>
      match fields.lookup "name" with
      | some f => Except.ok f
      | none => Except.error "AttributeError"
  | _ => Except.error "AttributeError"

/-- Python `<`-based key comparison used by `list.sort(key=...)`: two ints
or two strings compare; protobuf messages and repeated containers define no
ordering, and mixed scalar types do not compare, so any other pair raises
`TypeError`. -/
def leKey : PField → PField → Except String Bool
  | .single (.pint a), .single (.pint b) => Except.ok (decide (a ≤ b))
  | .single (.pstr a), .single (.pstr b) => Except.ok (strLe a b)
  | _, _ => Except.error "TypeError"

/-- Python comparison of two repeated-scalar elements for keyless
`v.sort()`. -/
def leScalar : PVal → PVal → Except String Bool
  | .pint a, .pint b => Except.ok (decide (a ≤ b))
  | .pstr a, .pstr b => Except.ok (strLe a b)
  | _, _ => Except.error "TypeError"

/-- Stable insertion with a fallible comparator: the error of the first
failing comparison propagates. -/
def orderedInsertE {α : Type} (le : α → α → Except String Bool) (a : α) :
    List α → Except String (List α)
  | [] => Except.ok [a]
  | b :: l =>
      match le a b with
      | Except.error e => Except.error e
      | Except.ok true => Except.ok (a :: b :: l)
      | Except.ok false =>
          match orderedInsertE le a l with
          | Except.error e => Except.error e
          | Except.ok l2 => Except.ok (b :: l2)

/-- Stable sort with a fallible comparator (Python `list.sort`). -/
def insertionSortE {α : Type} (le : α → α → Except String Bool) :
    List α → Except String (List α)
  | [] => Except.ok []
  | a :: l =>
      match insertionSortE le l with
      | Except.error e => Except.error e
      | Except.ok l2 => orderedInsertE le a l2

/-- Python `list.sort(key=f)` computes the key of every element up front; the
first failing key extraction raises. -/
def decorate (l : List PVal) : Except String (List (PField × PVal)) :=
  match l with
  | [] => Except.ok []
  | v :: rest =>
      match NameOrSelf v with
      | Except.error e => Except.error e
      | Except.ok k =>
          match decorate rest with
          | Except.error e => Except.error e
          | Except.ok rest2 => Except.ok ((k, v) :: rest2)

/-- The `v.sort(key=NameOrSelf)` call (line 130). -/
def sortByName (l : List PVal) : Except String (List PVal) :=
  match decorate l with
  | Except.error e => Except.error e
  | Except.ok pairs =>
      match insertionSortE (fun p q => leKey p.1 q.1) pairs with
      | Except.error e => Except.error e
      | Except.ok sorted2 => Except.ok (sorted2.map Prod.snd)

mutual
/-- Function `CanonicalizeSnapshot.Canonicalize` (lines 117-132) on one value:
scalars are left alone (only messages are recursed into). -/
def canonVal : PVal → Except String PVal
  | .pint n => Except.ok (.pint n)
  | .pstr s => Except.ok (.pstr s)
  | .pmsg fields =>
      match canonFields fields with
      | Except.error e => Except.error e
      | Except.ok fields2 => Except.ok (.pmsg fields2)

/-- The `for (fd, v) in message.ListFields()` loop: every field is
processed independently, in order. -/
def canonFields : List (String × PField) → Except String (List (String × PField))
  | [] => Except.ok []
  | (fname, f) :: rest =>
      match canonField fname f with
      | Except.error e => Except.error e
      | Except.ok f2 =>
          match canonFields rest with
          | Except.error e => Except.error e
          | Except.ok rest2 => Except.ok ((fname, f2) :: rest2)

/-- One loop iteration: non-repeated fields are skipped; a repeated field
named `arguments` is skipped before any recursion (line 122); otherwise
the elements are recursed into, then the (non-empty) list is sorted — by
`NameOrSelf` when the first element is a message, by value otherwise. -/
def canonField (fname : String) : PField → Except String PField
  | .single v => Except.ok (.single v)
  | .repeated vs =>
      if fname = "arguments" then Except.ok (.repeated vs)
      else
        match canonItems vs with
        | Except.error e => Except.error e
        | Except.ok vs2 =>
            match vs2 with
            | [] => Except.ok (.repeated [])
            | v0 :: _ =>
                match v0 with
                | .pmsg _ =>
                    match sortByName vs2 with
                    | Except.error e => Except.error e
                    | Except.ok sorted2 => Except.ok (.repeated sorted2)
                | _ =>
                    match insertionSortE leScalar vs2 with
                    | Except.error e => Except.error e
                    | Except.ok sorted2 => Except.ok (.repeated sorted2)

/-- The `for item in v: if isinstance(item, Message): Canonicalize(item)`
loop. -/
def canonItems : List PVal → Except String (List PVal)
  | [] => Except.ok []
  | v :: rest =>
      match canonVal v with
      | Except.error e => Except.error e
      | Except.ok v2 =>
          match canonItems rest with
          | Except.error e => Except.error e
          | Except.ok rest2 => Except.ok (v2 :: rest2)
end

/-- A value that `NameOrSelf` maps to a singular string key. -/
def hasStrName : PVal → Bool
  | .pmsg fields =>
      match fields.lookup "name" with
      | some (.single (.pstr _)) => true
      | _ => false
  | _ => false

/-- A decorated pair whose key is a singular string. -/
def isStrKeyPair : PField × PVal → Bool
  | (.single (.pstr _), _) => true
  | _ => false

/-! ### Embedding of the snapshot schema into the generic model -/

/-- An `IDLType` as a protobuf message. -/
def idlTypeToPVal (t : IDLType) : PVal :=
  .pmsg [("idl_type_string", .single (.pstr t.idl_type_string))]

/-- An `ExtendedAttributes` record as a protobuf message (scalar leaves). -/
def extsToPVal (e : ExtendedAttributes) : PVal :=
  .pmsg [("secure_context", .single (.pint (if e.secure_context then 1 else 0))),
         ("high_entropy", .single (.pint
           (match e.high_entropy with
             | HighEntropyType.HIGH_ENTROPY_NONE => 0
             | HighEntropyType.HIGH_ENTROPY_UNCLASSIFIED => 1
             | HighEntropyType.HIGH_ENTROPY_DIRECT => 2))),
         ("use_counter", .single (.pstr e.use_counter))]

/-- A `SourceLocation` as a protobuf message. -/
def sourceLocToPVal (s : SourceLocation) : PVal :=
  .pmsg [("filename", .single (.pstr s.filename)), ("line", .single (.pint s.line))]

/-- An `Attribute` as a protobuf message. -/
def attrToPVal (a : Attribute) : PVal :=
  .pmsg [("name", .single (.pstr a.name)),
         ("idl_type", .single (idlTypeToPVal a.idl_type)),
         ("extended_attributes", .single (extsToPVal a.extended_attributes)),
         ("source_location", .single (sourceLocToPVal a.source_location))]

/-- An `Operation` as a protobuf message; `arguments` is its one repeated
field. -/
def opToPVal (op : Operation) : PVal :=
  .pmsg [("name", .single (.pstr op.name)),
         ("return_type", .single (idlTypeToPVal op.return_type)),
         ("arguments", .repeated (op.arguments.map idlTypeToPVal)),
         ("extended_attributes", .single (extsToPVal op.extended_attributes)),
         ("source_location", .single (sourceLocToPVal op.source_location))]

/-- A `Constant` as a protobuf message. -/
def constToPVal (c : Constant) : PVal :=
  .pmsg [("name", .single (.pstr c.name)),
         ("idl_type", .single (idlTypeToPVal c.idl_type)),
         ("source_location", .single (sourceLocToPVal c.source_location))]

/-- An `InterfaceLike` as a protobuf message. -/
def interfaceToPVal (i : Interface) : PVal :=
  .pmsg [("name", .single (.pstr i.name)),
         ("extended_attributes", .single (extsToPVal i.extended_attributes)),
         ("source_location", .single (sourceLocToPVal i.source_location)),
         ("attributes", .repeated (i.attributes.map attrToPVal)),
         ("operations", .repeated (i.operations.map opToPVal)),
         ("constants", .repeated (i.constants.map constToPVal))]

/-- A `Snapshot` as a protobuf message. -/
def snapshotToPVal (S : Snapshot) : PVal :=
  .pmsg [("chromium_revision", .single (.pstr S.chromium_revision)),
         ("interfaces", .repeated (S.interfaces.map interfaceToPVal))]

/-- A message whose `items` elements are records without a `name` field:
the input on which the claimed identity fallback of `NameOrSelf` would have
to kick in. -/
def namelessMsg : PVal :=
  .pmsg [("items", .repeated
    [.pmsg [("x", .single (.pint 1))], .pmsg [("x", .single (.pint 2))]])]

/-- Fields of an operation-like message: an `arguments` field holding
records with out-of-order nested repeated fields and out-of-order names,
next to an `operations` field that does get sorted. -/
def argDemoFields : List (String × PField) :=
  [("arguments", .repeated
      [.pmsg [("types", .repeated [.pstr "b", .pstr "a"]),
              ("name", .single (.pstr "z"))],
       .pmsg [("name", .single (.pstr "a"))]]),
   ("operations", .repeated
      [.pmsg [("name", .single (.pstr "z"))],
       .pmsg [("name", .single (.pstr "a"))]])]

/-- What canonicalization produces on `argDemoFields`: the `arguments`
subtree byte-for-byte unchanged, the sibling `operations` sorted by name. -/
def argDemoCanonFields : List (String × PField) :=
  [("arguments", .repeated
      [.pmsg [("types", .repeated [.pstr "b", .pstr "a"]),
              ("name", .single (.pstr "z"))],
       .pmsg [("name", .single (.pstr "a"))]]),
   ("operations", .repeated
      [.pmsg [("name", .single (.pstr "a"))],
       .pmsg [("name", .single (.pstr "z"))]])]

/-! ## Helper lemmas about the stable sort -/

theorem lexLeB_refl : ∀ l : List Char, lexLeB l l = true
  | [] => rfl
  | a :: as => by
      rw [lexLeB, if_neg (lt_irrefl a), if_neg (lt_irrefl a)]
      exact lexLeB_refl as

theorem lexLeB_total : ∀ x y : List Char, lexLeB x y = true ∨ lexLeB y x = true
  | [], _ => Or.inl rfl
  | _ :: _, [] => Or.inr rfl
  | a :: as, b :: bs => by
      rcases lt_trichotomy a b with hab | hab | hab
      · left
        rw [lexLeB, if_pos hab]
      · subst hab
        rcases lexLeB_total as bs with h | h
        · left
          rw [lexLeB, if_neg (lt_irrefl a), if_neg (lt_irrefl a)]
          exact h
        · right
          rw [lexLeB, if_neg (lt_irrefl a), if_neg (lt_irrefl a)]
          exact h
      · right
        rw [lexLeB, if_pos hab]

theorem lexLeB_trans :
    ∀ x y z : List Char, lexLeB x y = true → lexLeB y z = true → lexLeB x z = true
  | [], _, _, _, _ => rfl
  | _ :: _, [], _, h, _ => by rw [lexLeB] at h; exact absurd h (by simp)
  | _ :: _, _ :: _, [], _, h => by rw [lexLeB] at h; exact absurd h (by simp)
  | a :: as, b :: bs, c :: cs, h₁, h₂ => by
      rcases lt_trichotomy a b with hab | hab | hab
      · rcases lt_trichotomy b c with hbc | hbc | hbc
        · rw [lexLeB, if_pos (lt_trans hab hbc)]
        · subst hbc
          rw [lexLeB, if_pos hab]
        · rw [lexLeB, if_neg (lt_asymm hbc), if_pos hbc] at h₂
          exact absurd h₂ (by simp)
      · subst hab
        rw [lexLeB, if_neg (lt_irrefl a), if_neg (lt_irrefl a)] at h₁
        rcases lt_trichotomy a c with hac | hac | hac
        · rw [lexLeB, if_pos hac]
        · subst hac
          rw [lexLeB, if_neg (lt_irrefl a), if_neg (lt_irrefl a)] at h₂ ⊢
          exact lexLeB_trans as bs cs h₁ h₂
        · rw [lexLeB, if_neg (lt_asymm hac), if_pos hac] at h₂
          exact absurd h₂ (by simp)
      · rw [lexLeB, if_neg (lt_asymm hab), if_pos hab] at h₁
        exact absurd h₁ (by simp)

theorem strLe_refl (a : String) : strLe a a = true := lexLeB_refl a.data

theorem strLe_total (a b : String) : strLe a b = true ∨ strLe b a = true :=
  lexLeB_total a.data b.data

theorem strLe_trans {a b c : String} (h₁ : strLe a b = true) (h₂ : strLe b c = true) :
    strLe a c = true :=
  lexLeB_trans a.data b.data c.data h₁ h₂

theorem pysortBy_perm {α : Type} (key : α → String) (l : List α) :
    (pysortBy key l).Perm l :=
  List.perm_insertionSort _ l

theorem pysortBy_sorted {α : Type} (key : α → String) (l : List α) :
    (pysortBy key l).Sorted (fun a b => strLe (key a) (key b) = true) := by
  haveI : IsTotal α (fun a b => strLe (key a) (key b) = true) :=
    ⟨fun a b => strLe_total (key a) (key b)⟩
  haveI : IsTrans α (fun a b => strLe (key a) (key b) = true) :=
    ⟨fun _ _ _ hab hbc => strLe_trans hab hbc⟩
  exact List.sorted_insertionSort _ l

theorem pysortBy_idem {α : Type} (key : α → String) (l : List α) :
    pysortBy key (pysortBy key l) = pysortBy key l :=
  (pysortBy_sorted key l).insertionSort_eq

theorem pysortBy_length {α : Type} (key : α → String) (l : List α) :
    (pysortBy key l).length = l.length :=
  (pysortBy_perm key l).length_eq

/-- Inserting an element whose key is `k` puts it in front of every other
element with key `k` already present (they all satisfy `key a ≤ key b`, and
insertion stops at the first such element). -/
theorem filter_orderedInsert_of_key {α : Type} (key : α → String) (k : String) (a : α)
    (h : key a = k) (l : List α) :
    (List.orderedInsert (fun x y => strLe (key x) (key y) = true) a l).filter
        (fun x => key x == k) =
      a :: l.filter (fun x => key x == k) := by
  have ha : (key a == k) = true := beq_iff_eq.mpr h
  induction l with
  | nil =>
      rw [List.orderedInsert, List.filter_cons, if_pos ha]
  | cons b l ih =>
      rw [List.orderedInsert]
      by_cases hab : strLe (key a) (key b) = true
      · rw [if_pos hab, List.filter_cons, if_pos ha]
      · have hbk : ¬ (key b == k) = true := by
          simp only [beq_iff_eq]
          intro hbk
          refine hab ?_
          rw [h, hbk]
          exact strLe_refl k
        rw [if_neg hab, List.filter_cons, if_neg hbk, ih, List.filter_cons, if_neg hbk]

/-- Inserting an element whose key is not `k` does not disturb the
`k`-keyed subsequence. -/
theorem filter_orderedInsert_of_ne {α : Type} (key : α → String) (k : String) (a : α)
    (h : ¬ key a = k) (l : List α) :
    (List.orderedInsert (fun x y => strLe (key x) (key y) = true) a l).filter
        (fun x => key x == k) =
      l.filter (fun x => key x == k) := by
  have ha : ¬ (key a == k) = true := by simp [h]
  induction l with
  | nil =>
      rw [List.orderedInsert, List.filter_cons, if_neg ha]
  | cons b l ih =>
      rw [List.orderedInsert]
      by_cases hab : strLe (key a) (key b) = true
      · rw [if_pos hab, List.filter_cons, if_neg ha]
      · rw [if_neg hab, List.filter_cons, ih, List.filter_cons]

/-- Stability of `pysortBy`: the subsequence of elements with any fixed key
is exactly the corresponding subsequence of the input, in input order. -/
theorem pysortBy_filter {α : Type} (key : α → String) (k : String) (l : List α) :
    (pysortBy key l).filter (fun x => key x == k) = l.filter (fun x => key x == k) := by
  induction l with
  | nil => rfl
  | cons a l ih =>
      show (List.orderedInsert _ a (pysortBy key l)).filter _ = _
      by_cases h : key a = k
      · rw [filter_orderedInsert_of_key key k a h, ih, List.filter_cons,
          if_pos (beq_iff_eq.mpr h)]
      · rw [filter_orderedInsert_of_ne key k a h, ih, List.filter_cons,
          if_neg (show ¬ (key a == k) = true by simp [h])]

theorem map_self_of_mem {α : Type} {f : α → α} :
    ∀ {l : List α}, (∀ a ∈ l, f a = a) → l.map f = l := by
  intro l h
  induction l with
  | nil => rfl
  | cons a l ih =>
      simp only [List.map_cons, h a (by simp)]
      rw [ih fun b hb => h b (by simp [hb])]

theorem flatMap_perm_pointwise {α β : Type} (f g : α → List β) (h : ∀ a, (f a).Perm (g a)) :
    ∀ l : List α, (l.flatMap f).Perm (l.flatMap g) := by
  intro l
  induction l with
  | nil => rfl
  | cons a l ih => simpa using (h a).append ih

/-! ## Helper lemmas about the row-building helpers -/

theorem getExtendedAttributes_spec (exts : ExtendedAttributes) (d : Row) :
    GetExtendedAttributes exts d =
      { d with
        secure_context := if exts.secure_context then some "True" else d.secure_context
        high_entropy :=
          match exts.high_entropy with
          | HighEntropyType.HIGH_ENTROPY_UNCLASSIFIED => some "(True)"
          | HighEntropyType.HIGH_ENTROPY_DIRECT => some "Direct"
          | HighEntropyType.HIGH_ENTROPY_NONE => d.high_entropy
        use_counter := if exts.use_counter ≠ "" then some exts.use_counter else d.use_counter } := by
  obtain ⟨sc, he, uc⟩ := exts
  cases sc <;> cases he <;> by_cases huc : uc = "" <;> simp [GetExtendedAttributes, huc]

theorem getSourceLocation_spec (sl : SourceLocation) (d : Row) :
    GetSourceLocation sl d =
      { d with
        source_file := if sl.filename ≠ "" then some sl.filename else d.source_file
        source_line := if 0 < sl.line then some (toString sl.line) else d.source_line } := by
  obtain ⟨fn, ln⟩ := sl
  by_cases hfn : fn = "" <;> by_cases h0 : ln = 0 <;> by_cases hpos : 0 < ln <;>
    simp [GetSourceLocation, hfn, h0, hpos]

/-! ## Helper lemmas about canonicalization -/

theorem canonInterface_name (i : Interface) : (canonInterface i).name = i.name := rfl

theorem canonInterface_idem (i : Interface) :
    canonInterface (canonInterface i) = canonInterface i := by
  simp [canonInterface, pysortBy_idem]

theorem canonicalize_step_perm (S : Snapshot) :
    (allOperations (CanonicalizeSnapshot S)).Perm (allOperations S) := by
  unfold allOperations CanonicalizeSnapshot
  refine ((List.Perm.flatMap_right Interface.operations
      (pysortBy_perm Interface.name (S.interfaces.map canonInterface))).trans ?_)
  rw [List.flatMap_map]
  exact flatMap_perm_pointwise _ _ (fun i => pysortBy_perm Operation.name i.operations)
    S.interfaces

/-! ## Helper lemmas about the generic model -/

theorem canonField_args (f : PField) : canonField "arguments" f = Except.ok f := by
  cases f with
  | single v => rfl
  | repeated vs => rfl

theorem canonField_single (fname : String) (v : PVal) :
    canonField fname (.single v) = Except.ok (.single v) := rfl

theorem canonVal_attr (a : Attribute) :
    canonVal (attrToPVal a) = Except.ok (attrToPVal a) := rfl

theorem canonVal_op (op : Operation) :
    canonVal (opToPVal op) = Except.ok (opToPVal op) := rfl

theorem canonVal_const (c : Constant) :
    canonVal (constToPVal c) = Except.ok (constToPVal c) := rfl

theorem hasStrName_attr (a : Attribute) : hasStrName (attrToPVal a) = true := rfl

theorem hasStrName_op (op : Operation) : hasStrName (opToPVal op) = true := rfl

theorem hasStrName_const (c : Constant) : hasStrName (constToPVal c) = true := rfl

theorem hasStrName_pmsg {v : PVal} (h : hasStrName v = true) :
    ∃ fields, v = PVal.pmsg fields := by
  cases v with
  | pint n => exact absurd h (by simp [hasStrName])
  | pstr s => exact absurd h (by simp [hasStrName])
  | pmsg fields => exact ⟨fields, rfl⟩

theorem NameOrSelf_of_named {v : PVal} (h : hasStrName v = true) :
    ∃ s, NameOrSelf v = Except.ok (PField.single (.pstr s)) := by
  obtain ⟨fields, rfl⟩ := hasStrName_pmsg h
  rw [hasStrName] at h
  cases hlk : fields.lookup "name" with
  | none => rw [hlk] at h; exact absurd h (by simp)
  | some f =>
      rw [hlk] at h
      cases f with
      | repeated vs => exact absurd h (by simp)
      | single w =>
          cases w with
          | pint n => exact absurd h (by simp)
          | pmsg g => exact absurd h (by simp)
          | pstr s => exact ⟨s, by simp [NameOrSelf, hlk]⟩

theorem isStrKeyPair_shape {k : PField} {v : PVal} (h : isStrKeyPair (k, v) = true) :
    ∃ s, k = PField.single (.pstr s) := by
  cases k with
  | repeated vs => exact absurd h (by simp [isStrKeyPair])
  | single w =>
      cases w with
      | pint n => exact absurd h (by simp [isStrKeyPair])
      | pmsg g => exact absurd h (by simp [isStrKeyPair])
      | pstr s => exact ⟨s, rfl⟩

theorem leKey_pair_ok (x y : PField × PVal) (hx : isStrKeyPair x = true)
    (hy : isStrKeyPair y = true) : ∃ r, leKey x.1 y.1 = Except.ok r := by
  obtain ⟨kx, vx⟩ := x
  obtain ⟨ky, vy⟩ := y
  obtain ⟨s, rfl⟩ := isStrKeyPair_shape hx
  obtain ⟨t, rfl⟩ := isStrKeyPair_shape hy
  exact ⟨strLe s t, rfl⟩

theorem orderedInsertE_ok {α : Type} (le : α → α → Except String Bool) (p : α → Bool)
    (hle : ∀ a b, p a = true → p b = true → ∃ r, le a b = Except.ok r) (a : α)
    (ha : p a = true) :
    ∀ l : List α, l.all p = true →
      ∃ l2, orderedInsertE le a l = Except.ok l2 ∧ l2.all p = true := by
  intro l
  induction l with
  | nil => exact fun _ => ⟨[a], rfl, by simp [ha]⟩
  | cons b l ih =>
      intro hbl
      obtain ⟨hb, hl⟩ : p b = true ∧ l.all p = true := by simpa using hbl
      obtain ⟨r, hr⟩ := hle a b ha hb
      cases r with
      | true =>
          exact ⟨a :: b :: l, by simp [orderedInsertE, hr], by simp [ha, hb, hl]⟩
      | false =>
          obtain ⟨l2, hl2, hall⟩ := ih hl
          exact ⟨b :: l2, by simp [orderedInsertE, hr, hl2], by simp [hb, hall]⟩

theorem insertionSortE_ok {α : Type} (le : α → α → Except String Bool) (p : α → Bool)
    (hle : ∀ a b, p a = true → p b = true → ∃ r, le a b = Except.ok r) :
    ∀ l : List α, l.all p = true →
      ∃ l2, insertionSortE le l = Except.ok l2 ∧ l2.all p = true := by
  intro l
  induction l with
  | nil => exact fun _ => ⟨[], rfl, rfl⟩
  | cons a l ih =>
      intro h
      obtain ⟨ha, hl⟩ : p a = true ∧ l.all p = true := by simpa using h
      obtain ⟨l2, hl2, hall⟩ := ih hl
      obtain ⟨l3, hl3, hall3⟩ := orderedInsertE_ok le p hle a ha l2 hall
      exact ⟨l3, by simp [insertionSortE, hl2, hl3], hall3⟩

theorem decorate_ok_of_named :
    ∀ vs : List PVal, vs.all hasStrName = true →
      ∃ pairs, decorate vs = Except.ok pairs ∧ pairs.all isStrKeyPair = true := by
  intro vs
  induction vs with
  | nil => exact fun _ => ⟨[], rfl, rfl⟩
  | cons v rest ih =>
      intro h
      obtain ⟨hv, hrest⟩ : hasStrName v = true ∧ rest.all hasStrName = true := by
        simpa using h
      obtain ⟨s, hs⟩ := NameOrSelf_of_named hv
      obtain ⟨pairs, hd, hp⟩ := ih hrest
      refine ⟨(PField.single (.pstr s), v) :: pairs, ?_, ?_⟩
      · simp [decorate, hs, hd]
      · simp [hp, isStrKeyPair]

theorem sortByName_ok_of_named (vs : List PVal) (h : vs.all hasStrName = true) :
    ∃ l2, sortByName vs = Except.ok l2 := by
  obtain ⟨pairs, hd, hp⟩ := decorate_ok_of_named vs h
  obtain ⟨sorted2, hs, _⟩ :=
    insertionSortE_ok (fun p q => leKey p.1 q.1) isStrKeyPair leKey_pair_ok pairs hp
  exact ⟨sorted2.map Prod.snd, by simp [sortByName, hd, hs]⟩

theorem canonField_repeated_named_ok (fname : String) (vs vs2 : List PVal)
    (hitems : canonItems vs = Except.ok vs2) (hnamed : vs2.all hasStrName = true) :
    ∃ f2, canonField fname (.repeated vs) = Except.ok f2 := by
  by_cases harg : fname = "arguments"
  · exact ⟨.repeated vs, by simp [canonField, harg]⟩
  · cases vs2 with
    | nil => exact ⟨.repeated [], by simp [canonField, harg, hitems]⟩
    | cons v0 rest =>
        obtain ⟨h0, _⟩ : hasStrName v0 = true ∧ rest.all hasStrName = true := by
          simpa using hnamed
        obtain ⟨fields0, rfl⟩ := hasStrName_pmsg h0
        obtain ⟨l2, hl2⟩ := sortByName_ok_of_named _ hnamed
        exact ⟨.repeated l2, by simp [canonField, harg, hitems, hl2]⟩

theorem canonItems_of_fixed {α : Type} (f : α → PVal)
    (hf : ∀ x, canonVal (f x) = Except.ok (f x)) :
    ∀ l : List α, canonItems (l.map f) = Except.ok (l.map f) := by
  intro l
  induction l with
  | nil => rfl
  | cons x l ih => simp [canonItems, hf x, ih]

theorem all_hasStrName_map {α : Type} (f : α → PVal) (hf : ∀ x, hasStrName (f x) = true)
    (l : List α) : (l.map f).all hasStrName = true := by
  induction l with
  | nil => rfl
  | cons x l ih => simp [hf x, ih]

theorem canonVal_interface_ok (i : Interface) :
    ∃ fields2, canonVal (interfaceToPVal i) = Except.ok (.pmsg fields2) ∧
      fields2.lookup "name" = some (PField.single (.pstr i.name)) := by
  obtain ⟨fa, hfa⟩ := canonField_repeated_named_ok "attributes" _ _
    (canonItems_of_fixed attrToPVal canonVal_attr i.attributes)
    (all_hasStrName_map attrToPVal hasStrName_attr i.attributes)
  obtain ⟨fo, hfo⟩ := canonField_repeated_named_ok "operations" _ _
    (canonItems_of_fixed opToPVal canonVal_op i.operations)
    (all_hasStrName_map opToPVal hasStrName_op i.operations)
  obtain ⟨fc, hfc⟩ := canonField_repeated_named_ok "constants" _ _
    (canonItems_of_fixed constToPVal canonVal_const i.constants)
    (all_hasStrName_map constToPVal hasStrName_const i.constants)
  refine ⟨[("name", .single (.pstr i.name)),
          ("extended_attributes", .single (extsToPVal i.extended_attributes)),
          ("source_location", .single (sourceLocToPVal i.source_location)),
          ("attributes", fa), ("operations", fo), ("constants", fc)], ?_, rfl⟩
  simp [interfaceToPVal, canonVal, canonFields, canonField_single, hfa, hfo, hfc]

theorem canonItems_interfaces (l : List Interface) :
    ∃ vs2, canonItems (l.map interfaceToPVal) = Except.ok vs2 ∧
      vs2.all hasStrName = true := by
  induction l with
  | nil => exact ⟨[], rfl, rfl⟩
  | cons i l ih =>
      obtain ⟨fields2, hv, hname⟩ := canonVal_interface_ok i
      obtain ⟨vs2, hvs, hall⟩ := ih
      refine ⟨.pmsg fields2 :: vs2, ?_, ?_⟩
      · simp [canonItems, hv, hvs]
      · simp [hall, hasStrName, hname]

/-! ## Claim theorems -/

/-- C1: Canonicalization is idempotent: for every Snapshot `S`,
`Canonicalize (Canonicalize S)` is structurally equal to `Canonicalize S`. -/
theorem canonicalize_idempotent (S : Snapshot) :
    CanonicalizeSnapshot (CanonicalizeSnapshot S) = CanonicalizeSnapshot S := by
  unfold CanonicalizeSnapshot
  have h1 : (pysortBy Interface.name (S.interfaces.map canonInterface)).map canonInterface
      = pysortBy Interface.name (S.interfaces.map canonInterface) := by
    apply map_self_of_mem
    intro x hx
    have hx' : x ∈ S.interfaces.map canonInterface :=
      (pysortBy_perm Interface.name _).mem_iff.mp hx
    obtain ⟨y, _, rfl⟩ := List.mem_map.mp hx'
    exact canonInterface_idem y
  simp only [h1, pysortBy_idem]

/-- C3: canonicalization, applied any number of times, leaves every
operation record — in particular its `arguments` sequence, element for
element and in order — exactly as it was: the operations of the result are
a permutation of the original operation records, and so are their argument
sequences. -/
theorem canonicalize_preserves_arguments (S : Snapshot) (n : ℕ) :
    (allOperations (CanonicalizeSnapshot^[n] S)).Perm (allOperations S) ∧
      ((allOperations (CanonicalizeSnapshot^[n] S)).map Operation.arguments).Perm
        ((allOperations S).map Operation.arguments) := by
  have h : (allOperations (CanonicalizeSnapshot^[n] S)).Perm (allOperations S) := by
    induction n with
    | zero => exact List.Perm.refl _
    | succ n ih =>
        rw [Function.iterate_succ_apply']
        exact (canonicalize_step_perm _).trans ih
  exact ⟨h, h.map Operation.arguments⟩

/-- C10: flattening produces exactly one row per entity: the number of rows
equals the sum over all interfaces of `1 + #attributes + #operations +
#constants`. -/
theorem flatten_row_count (S : Snapshot) :
    (ProtobufToCanonicalList S).length =
      (S.interfaces.map (fun i =>
        1 + i.attributes.length + i.operations.length + i.constants.length)).sum := by
  unfold ProtobufToCanonicalList walkRows
  rw [pysortBy_length]
  induction S.interfaces with
  | nil => rfl
  | cons i l ih =>
      simp only [List.flatMap_cons, List.map_cons, List.sum_cons, List.length_append, ih,
        interfaceRows, List.length_cons, List.length_map]
      omega

/-- C2: for every snapshot, `ProtobufToCanonicalList` is the stable sort of
the walked rows by the key `interface + ":" + name` (empty string for a
missing component): it is a permutation of the walked rows, sorted by that
key, with equal-keyed rows kept in walk order; and the concrete two-interface
example flattens to rows ordered `A (interface), A:y (attribute),
B (interface), B:x (constant)`. -/
theorem flatten_is_stable_sort :
    (∀ S : Snapshot, (ProtobufToCanonicalList S).Perm (walkRows S)) ∧
      (∀ S : Snapshot,
        (ProtobufToCanonicalList S).Sorted
          (fun d e => strLe (KeyFunc d) (KeyFunc e) = true)) ∧
      (∀ (S : Snapshot) (k : String),
        (ProtobufToCanonicalList S).filter (fun d => KeyFunc d == k) =
          (walkRows S).filter (fun d => KeyFunc d == k)) ∧
      (ProtobufToCanonicalList rowOrderSnapshot).map
          (fun d => (d.interface, d.name, d.entity_type)) =
        [(some "A", none, some "interface"), (some "A", some "y", some "attribute"),
         (some "B", none, some "interface"), (some "B", some "x", some "constant")] :=
  ⟨fun S => pysortBy_perm KeyFunc (walkRows S),
   fun S => pysortBy_sorted KeyFunc (walkRows S),
   fun S k => pysortBy_filter KeyFunc k (walkRows S),
   by decide⟩

/-- C5: for interface, attribute and operation rows the extended-attribute
columns are derived exactly as specified: `secure_context` is `"True"` iff
`secure_context` is set (absent otherwise, never `"False"`); `high_entropy`
is `"(True)"` for unclassified, `"Direct"` for direct, absent for none;
`use_counter` is the `use_counter` string iff it is non-empty. -/
theorem extended_attribute_projection :
    (∀ i : Interface,
        (interfaceRow i).secure_context =
            (if i.extended_attributes.secure_context then some "True" else none) ∧
          (interfaceRow i).high_entropy =
            (match i.extended_attributes.high_entropy with
              | HighEntropyType.HIGH_ENTROPY_UNCLASSIFIED => some "(True)"
              | HighEntropyType.HIGH_ENTROPY_DIRECT => some "Direct"
              | HighEntropyType.HIGH_ENTROPY_NONE => none) ∧
          (interfaceRow i).use_counter =
            (if i.extended_attributes.use_counter ≠ "" then
              some i.extended_attributes.use_counter
            else none)) ∧
      (∀ (iname : String) (a : Attribute),
        (attributeRow iname a).secure_context =
            (if a.extended_attributes.secure_context then some "True" else none) ∧
          (attributeRow iname a).high_entropy =
            (match a.extended_attributes.high_entropy with
              | HighEntropyType.HIGH_ENTROPY_UNCLASSIFIED => some "(True)"
              | HighEntropyType.HIGH_ENTROPY_DIRECT => some "Direct"
              | HighEntropyType.HIGH_ENTROPY_NONE => none) ∧
          (attributeRow iname a).use_counter =
            (if a.extended_attributes.use_counter ≠ "" then
              some a.extended_attributes.use_counter
            else none)) ∧
      (∀ (iname : String) (op : Operation),
        (operationRow iname op).secure_context =
            (if op.extended_attributes.secure_context then some "True" else none) ∧
          (operationRow iname op).high_entropy =
            (match op.extended_attributes.high_entropy with
              | HighEntropyType.HIGH_ENTROPY_UNCLASSIFIED => some "(True)"
              | HighEntropyType.HIGH_ENTROPY_DIRECT => some "Direct"
              | HighEntropyType.HIGH_ENTROPY_NONE => none) ∧
          (operationRow iname op).use_counter =
            (if op.extended_attributes.use_counter ≠ "" then
              some op.extended_attributes.use_counter
            else none)) := by
  refine ⟨fun i => ?_, fun iname a => ?_, fun iname op => ?_⟩ <;>
    simp [interfaceRow, attributeRow, operationRow, getExtendedAttributes_spec,
      getSourceLocation_spec, GetIdlType]

/-- C6: the `Navigator.share` operation with `secureContextRequired`,
`highEntropyClassification=direct`, return type `Promise<void>` and one
`ShareData` argument flattens to exactly the specified row, with
`use_counter`, `source_file` and `source_line` absent; flattened through the
whole pipeline it appears after the `Navigator` interface row. -/
theorem share_operation_row :
    operationRow "Navigator" shareOperation =
        { interface := some "Navigator", name := some "share",
          entity_type := some "operation", arguments := some "(ShareData)",
          idl_type := some "Promise<void>", secure_context := some "True",
          high_entropy := some "Direct" } ∧
      ProtobufToCanonicalList navigatorSnapshot =
        [interfaceRow navigatorInterface, operationRow "Navigator" shareOperation] := by
  constructor <;> decide

/-- C7: for every entity row (interface, attribute, operation, constant),
`source_file` is the filename iff the filename is non-empty, and
`source_line` is the decimal string of the line iff the line is positive;
zero or negative lines yield an absent column. -/
theorem source_location_projection :
    (∀ i : Interface,
        (interfaceRow i).source_file =
            (if i.source_location.filename ≠ "" then some i.source_location.filename
            else none) ∧
          (interfaceRow i).source_line =
            (if 0 < i.source_location.line then some (toString i.source_location.line)
            else none)) ∧
      (∀ (iname : String) (a : Attribute),
        (attributeRow iname a).source_file =
            (if a.source_location.filename ≠ "" then some a.source_location.filename
            else none) ∧
          (attributeRow iname a).source_line =
            (if 0 < a.source_location.line then some (toString a.source_location.line)
            else none)) ∧
      (∀ (iname : String) (op : Operation),
        (operationRow iname op).source_file =
            (if op.source_location.filename ≠ "" then some op.source_location.filename
            else none) ∧
          (operationRow iname op).source_line =
            (if 0 < op.source_location.line then some (toString op.source_location.line)
            else none)) ∧
      (∀ (iname : String) (c : Constant),
        (constantRow iname c).source_file =
            (if c.source_location.filename ≠ "" then some c.source_location.filename
            else none) ∧
          (constantRow iname c).source_line =
            (if 0 < c.source_location.line then some (toString c.source_location.line)
            else none)) := by
  refine ⟨fun i => ?_, fun iname a => ?_, fun iname op => ?_, fun iname c => ?_⟩ <;>
    simp [interfaceRow, attributeRow, operationRow, constantRow,
      getExtendedAttributes_spec, getSourceLocation_spec, GetIdlType]

/-- C8: both sorts are stable under equal keys: canonicalization keeps
equally-named operations of an interface in their original relative order,
and flattening keeps rows with an equal `interface:name` key in walk order;
in particular the two overloaded `open` operations (differing only in
`arguments`) stay in declaration order after `Canonicalize` and in the
flattened row sequence. -/
theorem sort_stability :
    (∀ (i : Interface) (nm : String),
        (canonInterface i).operations.filter (fun op => op.name == nm) =
          i.operations.filter (fun op => op.name == nm)) ∧
      (∀ (S : Snapshot) (k : String),
        (ProtobufToCanonicalList S).filter (fun d => KeyFunc d == k) =
          (walkRows S).filter (fun d => KeyFunc d == k)) ∧
      (canonInterface openInterface).operations = [openOp1, openOp2] ∧
      (ProtobufToCanonicalList openSnapshot).map Row.arguments =
        [none, some "(long)", some "(DOMString)"] :=
  ⟨fun i nm => pysortBy_filter Operation.name nm i.operations,
   fun S k => pysortBy_filter KeyFunc k (walkRows S),
   by decide, by decide⟩

/-- C4 counterexample: on a record whose repeated-field elements are
records without a `name` field, `Canonicalize` does not fall back to
sorting by the element's own identity — `NameOrSelf` is `message.name`
unconditionally, so the run raises `AttributeError`. -/
theorem canonicalize_nameless_raises :
    canonVal namelessMsg = Except.error "AttributeError" := rfl

/-- C4 (amended): `Canonicalize` sorts repeated record elements by each
element's `name` field and is total on records of the snapshot schema,
where every sortable element carries a singular string `name`; a record
element with no `name` field makes it raise `AttributeError` rather than
sort by the element's own identity/value. -/
theorem canonicalize_total_on_schema (S : Snapshot) :
    ∃ v, canonVal (snapshotToPVal S) = Except.ok v := by
  obtain ⟨vs2, hvs, hall⟩ := canonItems_interfaces S.interfaces
  obtain ⟨f2, hf2⟩ := canonField_repeated_named_ok "interfaces" _ vs2 hvs hall
  exact ⟨.pmsg [("chromium_revision", .single (.pstr S.chromium_revision)),
                ("interfaces", f2)],
    by simp [snapshotToPVal, canonVal, canonFields, canonField_single, hf2]⟩

/-- C9: the `arguments` skip covers recursion, not only reordering: in any
successful canonicalization the `arguments` field of the message comes out
exactly as it went in, nested repeated fields and their order included;
and on the concrete demo record the `arguments` subtree (with its unsorted
inner repeated field) is unchanged while the sibling `operations` field is
sorted by name. -/
theorem arguments_field_untouched :
    (∀ (fields res : List (String × PField)), canonFields fields = Except.ok res →
        res.lookup "arguments" = fields.lookup "arguments") ∧
      canonFields argDemoFields = Except.ok argDemoCanonFields := by
  constructor
  · intro fields
    induction fields with
    | nil =>
        intro res h
        obtain rfl : ([] : List (String × PField)) = res := by simpa [canonFields] using h
        rfl
    | cons p rest ih =>
        obtain ⟨fname, f⟩ := p
        intro res h
        rw [canonFields] at h
        cases hf : canonField fname f with
        | error e => rw [hf] at h; exact absurd h (by simp)
        | ok f2 =>
            rw [hf] at h
            cases hr : canonFields rest with
            | error e => rw [hr] at h; exact absurd h (by simp)
            | ok rest2 =>
                rw [hr] at h
                obtain rfl : (fname, f2) :: rest2 = res := by simpa using h
                by_cases harg : fname = "arguments"
                · subst harg
                  obtain rfl : f2 = f := by
                    have h2 : Except.ok (ε := String) f2 = Except.ok f :=
                      hf.symm.trans (canonField_args f)
                    simpa using h2
                  simp [List.lookup]
                · have hbeq : ("arguments" == fname) = false := by
                    simpa using fun h' => harg h'.symm
                  simp only [List.lookup, hbeq]
                  exact ih rest2 hr
  · rfl

/-- C9 witness: the theorem applied to the concrete operation-like record. -/
theorem arguments_field_untouched_witness :
    List.lookup "arguments" argDemoCanonFields = List.lookup "arguments" argDemoFields :=
  arguments_field_untouched.1 argDemoFields argDemoCanonFields (by rfl)

end ApiList
